import Mathlib

/-!
# RequestKit — verification of the retry / interceptor / serialization core

Shallow embedding of the TypeScript sources of RequestKit
(`src/features/retry` + `src/features/cancel`, `src/interceptors/*`,
`src/serializers/headers.ts`, `src/utils/url.ts`, `src/core/response.ts`,
`src/core/error.ts`) together with theorems about the behaviour the
specification describes.

Conventions of the embedding:
* JavaScript numbers that the code only ever uses as non-negative integers
  (retry limits, delays, HTTP status codes, handler ids) are modelled as `Nat`.
* A `Promise` that can reject is modelled as `Except RequestError _`:
  `throw e` becomes `Except.error e`, `return v` becomes `Except.ok v`.
  `await` of an already-started promise is plain sequencing.
* Functions supplied by the caller (interceptor handlers, `retryCondition`,
  the wrapped execution function of `withRetry`) are modelled as Lean
  functions of the corresponding `Except` type.
-/

/-- TS `HttpMethod` from `src/types.ts`:
`'GET' | 'POST' | 'PUT' | 'PATCH' | 'DELETE' | 'HEAD' | 'OPTIONS'`. -/
inductive HttpMethod where
  | GET | POST | PUT | PATCH | DELETE | HEAD | OPTIONS
deriving DecidableEq, Repr

/-- TS `ErrorCode` from `src/types.ts`. -/
inductive ErrorCode where
  | ERR_NETWORK | ERR_TIMEOUT | ERR_CANCELED | ERR_BAD_REQUEST | ERR_BAD_RESPONSE
deriving DecidableEq, Repr

/-- The `RequestError` shape from `src/types.ts` / `src/core/error.ts`,
restricted to the fields the verified code reads: `message`, `code` and
`status` (optional in TS, hence `Option`).  The back-references `config`,
`request`, `response` and the payload `data` are never consulted by the
code under verification and are omitted. -/
structure RequestError where
  message : String
  code : Option ErrorCode
  status : Option Nat
deriving DecidableEq, Repr

/-- TS `isCancelError` from `src/core/error.ts`, specialised to Error Records:
for a `RequestError` it returns `error.code === 'ERR_CANCELED'`.  (The TS
function additionally recognises a raw platform `AbortError`; inside the
retry engine every caught value is treated as a `RequestError`, which is
what we model.) -/
def isCancelError (error : RequestError) : Bool :=
  error.code = some ErrorCode.ERR_CANCELED

/-- TS `'linear' | 'exponential'` from `RetryConfig.backoff` in `src/types.ts`. -/
inductive Backoff where
  | linear | exponential
deriving DecidableEq, Repr

/-- TS `Required<RetryConfig>` from `src/features/retry`: every field present.
The `onRetry` observability callback returns nothing and influences nothing,
so it is omitted from the model. -/
structure RetryConfigR where
  limit : Nat
  methods : List HttpMethod
  statusCodes : List Nat
  delay : Nat
  backoff : Backoff
  maxDelay : Nat
  retryCondition : RequestError → Bool

/-- TS `DEFAULT_RETRY_CONFIG` from `src/features/retry`. -/
def DEFAULT_RETRY_CONFIG : RetryConfigR :=
  { limit := 0
  , methods := [HttpMethod.GET, HttpMethod.HEAD, HttpMethod.OPTIONS,
                HttpMethod.PUT, HttpMethod.DELETE]
  , statusCodes := [408, 429, 500, 502, 503, 504]
  , delay := 1000
  , backoff := Backoff.exponential
  , maxDelay := 30000
  , retryCondition := fun _ => true }

/-- A user-supplied `RetryConfig` object (all fields except `limit`
optional in `src/types.ts`). -/
structure RetryConfigIn where
  limit : Nat
  methods : Option (List HttpMethod) := none
  statusCodes : Option (List Nat) := none
  delay : Option Nat := none
  backoff : Option Backoff := none
  maxDelay : Option Nat := none
  retryCondition : Option (RequestError → Bool) := none

/-- The `number | RetryConfig | undefined` argument of
`normalizeRetryConfig`. -/
inductive RetryInput where
  | undef
  | num (n : Nat)
  | cfg (c : RetryConfigIn)

/-- TS `normalizeRetryConfig` from `src/features/retry`.  The TS object
spread `{...DEFAULT_RETRY_CONFIG, ...config, ...}` keeps the default for
every field the caller did not supply, which `Option.getD` models. -/
def normalizeRetryConfig : RetryInput → RetryConfigR
  | RetryInput.undef => { DEFAULT_RETRY_CONFIG with limit := 0 }
  | RetryInput.num n =>
      if n = 0 then { DEFAULT_RETRY_CONFIG with limit := 0 }
      else { DEFAULT_RETRY_CONFIG with limit := n }
  | RetryInput.cfg c =>
      { limit := c.limit
      , methods := c.methods.getD DEFAULT_RETRY_CONFIG.methods
      , statusCodes := c.statusCodes.getD DEFAULT_RETRY_CONFIG.statusCodes
      , delay := c.delay.getD DEFAULT_RETRY_CONFIG.delay
      , backoff := c.backoff.getD DEFAULT_RETRY_CONFIG.backoff
      , maxDelay := c.maxDelay.getD DEFAULT_RETRY_CONFIG.maxDelay
      , retryCondition := c.retryCondition.getD DEFAULT_RETRY_CONFIG.retryCondition }

/-- TS `calculateDelay` from `src/features/retry`:
linear backoff gives `delay * attempt`, exponential gives
`delay * 2^(attempt-1)`, and the result is capped by `Math.min` at
`maxDelay`.  (`attempt - 1` is `Nat` subtraction; the code only ever calls
this with `attempt ≥ 1`, where it agrees with the JS arithmetic.) -/
def calculateDelay (attempt : Nat) (config : RetryConfigR) : Nat :=
  let calculated : Nat :=
    match config.backoff with
    | Backoff.linear => config.delay * attempt
    | Backoff.exponential => config.delay * 2 ^ (attempt - 1)
  min calculated config.maxDelay

/-- TS `shouldRetry` from `src/features/retry`, with the early `return false`
branches rendered as a chain of conditionals in source order. -/
def shouldRetry (error : RequestError) (attempt : Nat)
    (config : RetryConfigR) (method : HttpMethod) : Bool :=
  if config.limit ≤ attempt then false
  else if isCancelError error then false
  else if !(config.methods.contains method) then false
  else if (match error.status with
           | some s => !(config.statusCodes.contains s)
           | none => false) = true then false
  else if !(config.retryCondition error) then false
  else true

/-- The slice of `InternalRequestConfig` (`src/types.ts`) that `withRetry`
reads: the HTTP method, and the abort state of the attached signal.
`signalAborted a` models the value of `requestConfig.signal?.aborted`
observed at the check that follows the delay before retry number `a`
(`fun _ => false` models a request with no signal). -/
structure RequestConfigM where
  url : String
  method : HttpMethod
  signalAborted : Nat → Bool

/-- Everything observable about one `withRetry` run: the value the promise
settles with, how many times the wrapped execution function was invoked,
and the successive waits (`await delay(retryDelay)`) in order. -/
structure WithRetryRun (T : Type) where
  result : Except RequestError T
  calls : Nat
  delays : List Nat
deriving Repr

/-- Fallback Error Record for the dead `throw lastError ?? new
Error('Retry failed')` line after the `while` loop of `withRetry`. -/
def retryFailedFallback : RequestError :=
  { message := "Retry failed", code := none, status := none }

/-- The `while (attempt <= config.limit)` loop of `withRetry`
(`src/features/retry`).  `fuel` is the number of loop iterations still
permitted by the loop guard, i.e. `config.limit + 1 - attempt`; reaching
`0` is the (unreachable) fall-through after the loop.  `fn` is the wrapped
execution function, indexed by how many invocations happened before
(`calls`), so a run can model an external service answering differently
per attempt. -/
def withRetryAux {T : Type} (fn : Nat → Except RequestError T)
    (config : RetryConfigR) (requestConfig : RequestConfigM) :
    Nat → Nat → Nat → Option RequestError → WithRetryRun T
  | 0, _, calls, lastError =>
      { result := Except.error (lastError.getD retryFailedFallback)
      , calls := calls, delays := [] }
  | Nat.succ fuel, attempt, calls, _ =>
      match fn calls with
      | Except.ok v => { result := Except.ok v, calls := calls + 1, delays := [] }
      | Except.error e =>
          let a := attempt + 1
          if shouldRetry e a config requestConfig.method then
            let d := calculateDelay a config
            if requestConfig.signalAborted a then
              { result := Except.error e, calls := calls + 1, delays := [d] }
            else
              let r := withRetryAux fn config requestConfig fuel a (calls + 1) (some e)
              { result := r.result, calls := r.calls, delays := d :: r.delays }
          else
            { result := Except.error e, calls := calls + 1, delays := [] }

/-- TS `withRetry` from `src/features/retry`: normalize the policy, short-cut
to a single invocation when `limit` is `0`, otherwise run the retry loop
starting from `attempt = 0`. -/
def withRetry {T : Type} (fn : Nat → Except RequestError T)
    (retryConfig : RetryInput) (requestConfig : RequestConfigM) : WithRetryRun T :=
  let config := normalizeRetryConfig retryConfig
  if config.limit = 0 then
    match fn 0 with
    | Except.ok v => { result := Except.ok v, calls := 1, delays := [] }
    | Except.error e => { result := Except.error e, calls := 1, delays := [] }
  else
    withRetryAux fn config requestConfig (config.limit + 1) 0 0 none

section RetryTheorems

/-- C2: For every normalized retry policy, attempt count, method and
Error Record, `shouldRetry` answers `false` exactly when one of the five
short-circuit conditions of the source holds: the failed-attempt count has
reached the limit, the error is a cancellation, the method is not
retryable, a present status code is not retryable (an absent status does
not block), or the custom retry condition refuses.  -/
theorem shouldRetry_false_iff (error : RequestError) (n : Nat)
    (config : RetryConfigR) (method : HttpMethod) :
    shouldRetry error n config method = false ↔
      (config.limit ≤ n ∨
       error.code = some ErrorCode.ERR_CANCELED ∨
       method ∉ config.methods ∨
       (∃ s, error.status = some s ∧ s ∉ config.statusCodes) ∨
       config.retryCondition error = false) := by
  unfold shouldRetry isCancelError
  rcases hs : error.status with _ | s <;>
    · split_ifs <;> simp_all [List.contains, List.elem_iff]

end RetryTheorems

/-- C5: For every policy and attempt number `n ≥ 1`, `calculateDelay`
is `min (delay * n) maxDelay` for linear backoff and
`min (delay * 2^(n-1)) maxDelay` for exponential backoff. -/
theorem calculateDelay_eq_formula (n : Nat) (config : RetryConfigR)
    (h : 1 ≤ n) :
    calculateDelay n config =
      if config.backoff = Backoff.linear then
        min (config.delay * n) config.maxDelay
      else
        min (config.delay * 2 ^ (n - 1)) config.maxDelay := by
  unfold calculateDelay
  cases hb : config.backoff <;> simp [hb]

/-- Witness for `calculateDelay_eq_formula` at `n = 2` under the default
(exponential) policy. -/
theorem calculateDelay_eq_formula_witness :
    calculateDelay 2 DEFAULT_RETRY_CONFIG =
      if DEFAULT_RETRY_CONFIG.backoff = Backoff.linear then
        min (DEFAULT_RETRY_CONFIG.delay * 2) DEFAULT_RETRY_CONFIG.maxDelay
      else
        min (DEFAULT_RETRY_CONFIG.delay * 2 ^ (2 - 1)) DEFAULT_RETRY_CONFIG.maxDelay :=
  calculateDelay_eq_formula 2 DEFAULT_RETRY_CONFIG (by decide)

/-- The Error Record `createResponseError` builds for a 500 response
(`src/core/error.ts`: `status >= 500` gives code `ERR_BAD_RESPONSE`). -/
def err500 : RequestError :=
  { message := "Request failed with status 500"
  , code := some ErrorCode.ERR_BAD_RESPONSE
  , status := some 500 }

/-- Wrapped execution function of the C1 scenario: the first two
invocations reject with the retryable 500 Error Record, the third
resolves with the 200 response's decoded body. -/
def fnFailTwice : Nat → Except RequestError String :=
  fun k => if k < 2 then Except.error err500 else Except.ok "decoded-200-body"

/-- A GET request with no abort signal attached. -/
def getNoSignal : RequestConfigM :=
  { url := "/test", method := HttpMethod.GET, signalAborted := fun _ => false }

/-- The retry policy `{limit: 2, delay: 100}` of the C1 scenario. -/
def retryLimit2Delay100 : RetryInput :=
  RetryInput.cfg { limit := 2, delay := some 100 }

/-- C1 (actual behaviour): Under the policy `{limit: 2, delay: 100}`,
with an execution function that fails with a retryable 500 Error Record
twice and would succeed on the third invocation, `withRetry` invokes the
function only **2** times and rejects with the second 500 error: after the
second failure the failed-attempt count (2) has reached `limit`, so
`shouldRetry` refuses and the third invocation never happens.  This
contradicts the spec scenario (3 invocations, resolving with the 200
body) and the project's own documentation, which calls `limit` the
maximum number of *retry* attempts and lists `limit` retry delays. -/
theorem withRetry_limit2_stops_after_two_calls :
    (withRetry fnFailTwice retryLimit2Delay100 getNoSignal).calls = 2 ∧
    (withRetry fnFailTwice retryLimit2Delay100 getNoSignal).result = Except.error err500 ∧
    (withRetry fnFailTwice retryLimit2Delay100 getNoSignal).delays = [100] := by
  refine ⟨rfl, rfl, rfl⟩

/-- Every computed retry delay is capped at `maxDelay`. -/
theorem calculateDelay_le_maxDelay (n : Nat) (config : RetryConfigR) :
    calculateDelay n config ≤ config.maxDelay := by
  unfold calculateDelay
  exact min_le_right _ _

/-- TS `calculateDelay` is monotone in the attempt number, for both backoff
shapes. -/
theorem calculateDelay_mono (config : RetryConfigR) {a b : Nat} (h : a ≤ b) :
    calculateDelay a config ≤ calculateDelay b config := by
  unfold calculateDelay
  cases config.backoff with
  | linear =>
      exact min_le_min (Nat.mul_le_mul_left _ h) le_rfl
  | exponential =>
      exact min_le_min
        (Nat.mul_le_mul_left _ (Nat.pow_le_pow_right (by omega) (by omega))) le_rfl

/-- A `true` answer from `shouldRetry` implies the failed-attempt count is
still below the limit (the first short-circuit check). -/
theorem shouldRetry_true_lt {e : RequestError} {n : Nat} {config : RetryConfigR}
    {m : HttpMethod} (h : shouldRetry e n config m = true) : n < config.limit := by
  unfold shouldRetry at h
  split_ifs at h <;> simp_all

/-- The delays recorded by the retry loop starting at failed-attempt count
`attempt` are `calculateDelay` evaluated at the consecutive attempt
numbers `attempt+1, attempt+2, …`, and every recorded attempt stays within
the limit. -/
theorem withRetryAux_delays_spec {T : Type} (fn : Nat → Except RequestError T)
    (config : RetryConfigR) (rc : RequestConfigM) :
    ∀ fuel attempt calls lastError,
      ∃ m, (withRetryAux fn config rc fuel attempt calls lastError).delays
             = (List.range m).map (fun j => calculateDelay (attempt + 1 + j) config)
           ∧ (m = 0 ∨ attempt + m ≤ config.limit) := by
  intro fuel
  induction fuel with
  | zero =>
      intro attempt calls lastError
      exact ⟨0, by simp [withRetryAux], Or.inl rfl⟩
  | succ fuel ih =>
      intro attempt calls lastError
      cases hfn : fn calls with
      | ok v => exact ⟨0, by simp [withRetryAux, hfn], Or.inl rfl⟩
      | error e =>
          by_cases hr : shouldRetry e (attempt + 1) config rc.method
          · have hlt : attempt + 1 < config.limit := shouldRetry_true_lt hr
            by_cases hab : rc.signalAborted (attempt + 1)
            · refine ⟨1, ?_, Or.inr (by omega)⟩
              simp [withRetryAux, hfn, hr, hab, List.range_succ]
            · obtain ⟨m', hm', hb'⟩ := ih (attempt + 1) (calls + 1) (some e)
              refine ⟨m' + 1, ?_, Or.inr (by omega)⟩
              have hcons :
                  (List.range (m' + 1)).map (fun j => calculateDelay (attempt + 1 + j) config)
                    = calculateDelay (attempt + 1) config ::
                      (List.range m').map (fun j => calculateDelay (attempt + 1 + 1 + j) config) := by
                rw [List.range_succ_eq_map, List.map_cons, List.map_map]
                refine congrArg₂ _ (by norm_num) (List.map_congr_left ?_)
                intro j _
                show calculateDelay (attempt + 1 + (j + 1)) config = _
                exact congrArg (fun x => calculateDelay x config) (by omega)
              simp [withRetryAux, hfn, hr, hab, hm', hcons]
          · exact ⟨0, by simp [withRetryAux, hfn, hr], Or.inl rfl⟩

/-- Top-level form of the previous lemma: in any `withRetry` run the
recorded delays are `calculateDelay` at the attempt numbers `1, 2, …, m`
for some `m` not exceeding the normalized limit. -/
theorem withRetry_delays_spec {T : Type} (fn : Nat → Except RequestError T)
    (input : RetryInput) (rc : RequestConfigM) :
    ∃ m, (withRetry fn input rc).delays
           = (List.range m).map (fun j => calculateDelay (1 + j) (normalizeRetryConfig input))
         ∧ m ≤ (normalizeRetryConfig input).limit := by
  unfold withRetry
  by_cases h0 : (normalizeRetryConfig input).limit = 0
  · cases hfn : fn 0 <;> exact ⟨0, by simp [h0, hfn], by omega⟩
  · obtain ⟨m, hm, hb⟩ :=
      withRetryAux_delays_spec fn (normalizeRetryConfig input) rc
        ((normalizeRetryConfig input).limit + 1) 0 0 none
    refine ⟨m, ?_, by omega⟩
    simp only [h0, if_false]
    simpa using hm

/-- C6 (amended): For every retry policy and every run, the sequence of
delays computed across a single call's retries has length at most the
normalized limit, is non-decreasing (for both `exponential` and `linear`
backoff — under `linear` backoff the delay grows as `delay * attempt`, so
it is non-decreasing but *not* constant), and every element is at most the
configured `maxDelay` cap. -/
theorem withRetry_delay_sequence {T : Type} (fn : Nat → Except RequestError T)
    (input : RetryInput) (rc : RequestConfigM) :
    (withRetry fn input rc).delays.length ≤ (normalizeRetryConfig input).limit ∧
    List.Pairwise (fun a b => a ≤ b) (withRetry fn input rc).delays ∧
    ∀ d ∈ (withRetry fn input rc).delays, d ≤ (normalizeRetryConfig input).maxDelay := by
  obtain ⟨m, hm, hb⟩ := withRetry_delays_spec fn input rc
  rw [hm]
  refine ⟨by simpa using hb, ?_, ?_⟩
  · exact List.pairwise_map.mpr
      ((List.pairwise_lt_range m).imp
        (fun hab => calculateDelay_mono _ (by omega)))
  · intro d hd
    obtain ⟨j, _, rfl⟩ := List.mem_map.mp hd
    exact calculateDelay_le_maxDelay _ _

/-- Execution function that always fails with the retryable 500 record. -/
def fnAlways500 : Nat → Except RequestError String :=
  fun _ => Except.error err500

/-- Linear-backoff policy `{limit: 3, delay: 100, backoff: 'linear'}`. -/
def retryLinear3 : RetryInput :=
  RetryInput.cfg { limit := 3, delay := some 100, backoff := some Backoff.linear }

/-- C6 (counterexample to the claim as stated): Under linear backoff
the delay sequence of a run is *not* constant: with
`{limit: 3, delay: 100, backoff: 'linear'}` and an always-failing
retryable error, the recorded delays are `[100, 200]`
(`delay * 1`, `delay * 2`). -/
theorem withRetry_linear_delays_not_constant :
    (withRetry fnAlways500 retryLinear3 getNoSignal).delays = [100, 200] ∧
    ¬ List.Pairwise (fun a b : Nat => a = b)
        (withRetry fnAlways500 retryLinear3 getNoSignal).delays := by
  refine ⟨rfl, ?_⟩
  rw [(rfl : (withRetry fnAlways500 retryLinear3 getNoSignal).delays = [100, 200])]
  decide

/-- Witness for `withRetry_delay_sequence` at the concrete linear run. -/
theorem withRetry_delay_sequence_witness :
    (withRetry fnAlways500 retryLinear3 getNoSignal).delays.length
        ≤ (normalizeRetryConfig retryLinear3).limit ∧
    List.Pairwise (fun a b => a ≤ b) (withRetry fnAlways500 retryLinear3 getNoSignal).delays ∧
    ∀ d ∈ (withRetry fnAlways500 retryLinear3 getNoSignal).delays,
      d ≤ (normalizeRetryConfig retryLinear3).maxDelay :=
  withRetry_delay_sequence fnAlways500 retryLinear3 getNoSignal

/-!
## Interceptor pipeline (`src/interceptors/request.ts`, response part of
`src/interceptors`, `src/interceptors/manager.ts`)
-/

/-- The value returned by a reject handler, after the pipeline's
duck-typing check.  `shaped v` models a returned value that passes the
structural test of the corresponding pipeline (`'url' in recovered` for
the request phase, `recovered instanceof Response` for the response
phase); `unshaped` models any other returned value.  The
`recovered instanceof Promise` branch of the TS code merely awaits the
same outcome and is collapsed by the `Except` embedding. -/
inductive RecoverValue (α : Type) where
  | shaped (v : α)
  | unshaped
deriving DecidableEq, Repr

/-- TS `InterceptorHandler` from `src/types.ts`: an optional fulfill function
and an optional reject function, as stored by the manager. -/
structure InterceptHandler (α : Type) where
  fulfilled : Option (α → Except RequestError α) := none
  rejected : Option (RequestError → Except RequestError (RecoverValue α)) := none

/-- The `for (const handler of handlers)` loop shared by
`applyRequestInterceptors` and `applyResponseInterceptors` (both files
have the identical control flow; they differ only in the duck-typing test
folded into `RecoverValue`): run the handler's fulfill function on the
current value; on a throw, consult the same handler's reject function —
a `shaped` return resumes the pipeline with that value (`continue`), any
other return re-throws the original error, and a throw from the reject
function propagates that error.  `isRequestError`-failing exceptions are
wrapped by `createInterceptorError` in TS; the embedding throws
`RequestError`s directly, so that normalization is the identity here. -/
def interceptLoop {α : Type} : List (InterceptHandler α) → α → Except RequestError α
  | [], current => Except.ok current
  | handler :: rest, current =>
      let afterFulfill : Except RequestError α :=
        match handler.fulfilled with
        | none => Except.ok current
        | some f => f current
      match afterFulfill with
      | Except.ok next => interceptLoop rest next
      | Except.error e =>
          match handler.rejected with
          | none => Except.error e
          | some r =>
              match r e with
              | Except.ok (RecoverValue.shaped v) => interceptLoop rest v
              | Except.ok RecoverValue.unshaped => Except.error e
              | Except.error e2 => Except.error e2

/-- TS `applyRequestInterceptors` from `src/interceptors/request.ts`:
dispatches over `manager.getHandlers()` in registration order. -/
def applyRequestInterceptors {α : Type} (config : α)
    (handlers : List (InterceptHandler α)) : Except RequestError α :=
  interceptLoop handlers config

/-- TS `applyResponseInterceptors` from the response-interceptor module:
dispatches over `manager.getHandlers().slice().reverse()`, i.e. in the
reverse of registration order. -/
def applyResponseInterceptors {α : Type} (response : α)
    (handlers : List (InterceptHandler α)) : Except RequestError α :=
  interceptLoop handlers.reverse response

/-- A recorder handler: its fulfill function appends its own registration
index to the value flowing through the pipeline, so a completed run's
value is exactly the invocation order of the fulfill functions. -/
def recHandler (i : Nat) : InterceptHandler (List Nat) :=
  { fulfilled := some (fun log => Except.ok (log ++ [i])), rejected := none }

/-- Recorder handlers log their indices in list order. -/
theorem interceptLoop_recHandlers (l : List Nat) :
    ∀ acc, interceptLoop (l.map recHandler) acc = Except.ok (acc ++ l) := by
  induction l with
  | nil => intro acc; simp [interceptLoop]
  | cons i t ih =>
      intro acc
      simp [interceptLoop, recHandler, ih (acc ++ [i])]

/-- C3: For every number `K` of registered handlers, the request-phase
pipeline invokes the fulfilled functions in exactly registration order
(`0, 1, …, K-1`), while the response-phase pipeline invokes them in
exactly the reverse of registration order (`K-1, …, 1, 0`), as recorded
by handlers that log their own registration index. -/
theorem interceptors_dispatch_order (K : Nat) :
    applyRequestInterceptors [] ((List.range K).map recHandler)
        = Except.ok (List.range K) ∧
    applyResponseInterceptors [] ((List.range K).map recHandler)
        = Except.ok (List.range K).reverse := by
  constructor
  · simpa using interceptLoop_recHandlers (List.range K) []
  · unfold applyResponseInterceptors
    rw [← List.map_reverse]
    simpa using interceptLoop_recHandlers (List.range K).reverse []

/-- C4: If a request-phase handler's fulfill function throws `e` on the
current Descriptor, then: with a reject function returning a
Descriptor-shaped value `c'` (it has a `url` field), the pipeline
continues over the remaining handlers with `c'` as the current
Descriptor; with a reject function returning a non-Descriptor-shaped
value, the pipeline aborts with `e`; with a reject function that throws
`e2`, the pipeline aborts with `e2`; and with no reject function, the
pipeline aborts with `e`. -/
theorem applyRequestInterceptors_recover {α : Type} (h : InterceptHandler α)
    (rest : List (InterceptHandler α)) (c c' : α) (e : RequestError)
    (f : α → Except RequestError α)
    (hf : h.fulfilled = some f) (he : f c = Except.error e) :
    (∀ r, h.rejected = some r → r e = Except.ok (RecoverValue.shaped c') →
        applyRequestInterceptors c (h :: rest) = applyRequestInterceptors c' rest)
    ∧ (∀ r, h.rejected = some r → r e = Except.ok RecoverValue.unshaped →
        applyRequestInterceptors c (h :: rest) = Except.error e)
    ∧ (∀ r e2, h.rejected = some r → r e = Except.error e2 →
        applyRequestInterceptors c (h :: rest) = Except.error e2)
    ∧ (h.rejected = none → applyRequestInterceptors c (h :: rest) = Except.error e) := by
  refine ⟨?_, ?_, ?_, ?_⟩
  · intro r hr hre
    simp [applyRequestInterceptors, interceptLoop, hf, he, hr, hre]
  · intro r hr hre
    simp [applyRequestInterceptors, interceptLoop, hf, he, hr, hre]
  · intro r e2 hr hre
    simp [applyRequestInterceptors, interceptLoop, hf, he, hr, hre]
  · intro hr
    simp [applyRequestInterceptors, interceptLoop, hf, he, hr]

/-- The slice of the Request Descriptor (`InternalRequestConfig`) the
pipeline claims are about: the target URL and method. -/
structure ReqDescriptor where
  url : String
  method : HttpMethod
deriving DecidableEq, Repr

/-- Error thrown by the witness's fulfill function. -/
def errBoom : RequestError :=
  { message := "boom", code := some ErrorCode.ERR_BAD_REQUEST, status := none }

/-- The patched Descriptor produced by the witness's reject function. -/
def recoveredDesc : ReqDescriptor :=
  { url := "/recovered", method := HttpMethod.GET }

/-- The original Descriptor entering the witness pipeline. -/
def origDesc : ReqDescriptor :=
  { url := "/orig", method := HttpMethod.GET }

/-- A handler whose fulfill throws and whose reject returns the patched
Descriptor with url `/recovered` (the spec's example). -/
def throwingHandler : InterceptHandler ReqDescriptor :=
  { fulfilled := some (fun _ => Except.error errBoom)
  , rejected := some (fun _ => Except.ok (RecoverValue.shaped recoveredDesc)) }

/-- Witness for `applyRequestInterceptors_recover`: the pipeline resumes
with the patched Descriptor, so the prepared transport request observes
the URL `/recovered`. -/
theorem applyRequestInterceptors_recover_witness :
    applyRequestInterceptors origDesc [throwingHandler] = Except.ok recoveredDesc ∧
    recoveredDesc.url = "/recovered" := by
  refine ⟨?_, rfl⟩
  have h := (applyRequestInterceptors_recover throwingHandler [] origDesc recoveredDesc errBoom
      (fun _ => Except.error errBoom) rfl rfl).1
      (fun _ => Except.ok (RecoverValue.shaped recoveredDesc)) rfl rfl
  exact h.trans rfl

/-- TS `InterceptorManagerImpl` from `src/interceptors/manager.ts`: a
`Map<number, InterceptorHandler>` (insertion-ordered, modelled as the
association list `handlers`) plus the `nextId` counter. -/
structure InterceptorManagerImpl (α : Type) where
  handlers : List (Nat × InterceptHandler α)
  nextId : Nat

/-- TS `createInterceptorManager`: a fresh manager. -/
def createInterceptorManager (α : Type) : InterceptorManagerImpl α :=
  { handlers := [], nextId := 0 }

/-- TS `use(onFulfilled?, onRejected?)`: store the pair under the next id
(JS `Map.set` with a fresh key appends in iteration order) and return the
id for later removal. -/
def InterceptorManagerImpl.use {α : Type} (m : InterceptorManagerImpl α)
    (onFulfilled : Option (α → Except RequestError α))
    (onRejected : Option (RequestError → Except RequestError (RecoverValue α))) :
    Nat × InterceptorManagerImpl α :=
  (m.nextId,
   { handlers := m.handlers ++ [(m.nextId, { fulfilled := onFulfilled, rejected := onRejected })]
   , nextId := m.nextId + 1 })

/-- TS `eject(id)`: `Map.delete`, removing exactly the entry keyed `id`. -/
def InterceptorManagerImpl.eject {α : Type} (m : InterceptorManagerImpl α)
    (id : Nat) : InterceptorManagerImpl α :=
  { m with handlers := m.handlers.filter (fun p => p.1 != id) }

/-- TS `clear()`: `Map.clear`. -/
def InterceptorManagerImpl.clear {α : Type} (m : InterceptorManagerImpl α) :
    InterceptorManagerImpl α :=
  { m with handlers := [] }

/-- TS `getHandlers()`: `Array.from(this.handlers.values())`, the handlers in
insertion order. -/
def InterceptorManagerImpl.getHandlers {α : Type} (m : InterceptorManagerImpl α) :
    List (InterceptHandler α) :=
  m.handlers.map Prod.snd

/-- One public operation on a manager, for stating the invariant over
arbitrary operation sequences. -/
inductive ManagerOp (α : Type) where
  | use (h : InterceptHandler α)
  | eject (id : Nat)
  | clear

/-- Apply one operation, also accumulating the ids handed out by `use`. -/
def managerStep {α : Type} (s : InterceptorManagerImpl α × List Nat)
    (op : ManagerOp α) : InterceptorManagerImpl α × List Nat :=
  match op with
  | ManagerOp.use h =>
      let r := s.1.use h.fulfilled h.rejected
      (r.2, s.2 ++ [r.1])
  | ManagerOp.eject id => (s.1.eject id, s.2)
  | ManagerOp.clear => (s.1.clear, s.2)

/-- Run a sequence of operations on a fresh manager, returning the final
state and every id `use` ever returned, in order. -/
def runOps {α : Type} (ops : List (ManagerOp α)) :
    InterceptorManagerImpl α × List Nat :=
  ops.foldl managerStep (createInterceptorManager α, [])

/-- Register a list of handlers in order on a fresh manager. -/
def registerAll {α : Type} (hs : List (InterceptHandler α)) :
    InterceptorManagerImpl α :=
  hs.foldl (fun m h => (m.use h.fulfilled h.rejected).2) (createInterceptorManager α)

/-- Registering `hs` on top of any manager state appends the entries
`(nextId, h0), (nextId+1, h1), …` and advances `nextId` by `hs.length`. -/
theorem foldl_use_spec {α : Type} :
    ∀ (hs : List (InterceptHandler α)) (m : InterceptorManagerImpl α),
      (hs.foldl (fun m h => (m.use h.fulfilled h.rejected).2) m).handlers
          = m.handlers ++ List.enumFrom m.nextId hs ∧
      (hs.foldl (fun m h => (m.use h.fulfilled h.rejected).2) m).nextId
          = m.nextId + hs.length := by
  intro hs
  induction hs with
  | nil => intro m; simp
  | cons h t ih =>
      intro m
      obtain ⟨h1, h2⟩ := ih ((m.use h.fulfilled h.rejected).2)
      constructor
      · rw [List.foldl_cons, h1]
        simp [InterceptorManagerImpl.use, List.enumFrom_cons]
      · rw [List.foldl_cons, h2]
        simp [InterceptorManagerImpl.use]
        omega

/-- Every index in `enumFrom n l` is at least `n`. -/
theorem enumFrom_fst_ge {α : Type} :
    ∀ (l : List α) (n : Nat) (p : Nat × α), p ∈ List.enumFrom n l → n ≤ p.1 := by
  intro l
  induction l with
  | nil => intro n p hp; simp at hp
  | cons a t ih =>
      intro n p hp
      rw [List.enumFrom_cons] at hp
      rcases List.mem_cons.mp hp with h1 | h1
      · simp [h1]
      · exact Nat.le_of_succ_le (ih (n + 1) p h1)

/-- Deleting the key `n + j` from `enumFrom n hs` and reading the values
back yields `hs` with its `j`-th element removed (or `hs` itself when `j`
is out of range). -/
theorem enumFrom_filter_ne {α : Type} :
    ∀ (hs : List α) (n j : Nat),
      ((List.enumFrom n hs).filter (fun p => p.1 != n + j)).map Prod.snd
        = hs.eraseIdx j := by
  intro hs
  induction hs with
  | nil => intro n j; simp [List.eraseIdx]
  | cons h t ih =>
      intro n j
      rw [List.enumFrom_cons]
      cases j with
      | zero =>
          rw [List.filter_cons]
          have hhead : ((n, h).1 != n + 0) = false := by simp
          rw [hhead]
          have hall : (List.enumFrom (n + 1) t).filter (fun p => p.1 != n + 0)
              = List.enumFrom (n + 1) t := by
            refine List.filter_eq_self.mpr ?_
            intro p hp
            have := enumFrom_fst_ge t (n + 1) p hp
            simp only [bne_iff_ne, ne_eq]
            omega
          rw [hall, List.eraseIdx]
          exact List.enumFrom_map_snd _ _
      | succ k =>
          rw [List.filter_cons]
          have hhead : ((n, h).1 != n + (k + 1)) = true := by
            simp only [bne_iff_ne, ne_eq]
            omega
          rw [hhead]
          have harg : (List.enumFrom (n + 1) t).filter (fun p => p.1 != n + (k + 1))
              = (List.enumFrom (n + 1) t).filter (fun p => p.1 != (n + 1) + k) := by
            have : n + (k + 1) = (n + 1) + k := by omega
            rw [this]
          simp only [if_true, List.map_cons, harg, ih (n + 1) k, List.eraseIdx]

/-- Ids already handed out stay below the current `nextId` counter, along
any operation sequence. -/
theorem runOps_returned_lt {α : Type} :
    ∀ (ops : List (ManagerOp α)) (m : InterceptorManagerImpl α) (ret : List Nat),
      (∀ i ∈ ret, i < m.nextId) →
      ∀ i ∈ (ops.foldl managerStep (m, ret)).2,
        i < (ops.foldl managerStep (m, ret)).1.nextId := by
  intro ops
  induction ops with
  | nil => intro m ret hret; simpa using hret
  | cons op t ih =>
      intro m ret hret
      rw [List.foldl_cons]
      cases op with
      | use h =>
          refine ih _ _ ?_
          intro i hi
          simp only [managerStep, InterceptorManagerImpl.use, List.mem_append,
            List.mem_singleton] at hi ⊢
          rcases hi with hi | hi
          · exact Nat.lt_succ_of_lt (hret i hi)
          · omega
      | eject id => exact ih _ _ hret
      | clear => exact ih _ _ hret

/-- C10: Across any sequence of `use`/`eject`/`clear` operations on a
fresh manager: a further `use` returns an id that was never previously
returned by that manager; registering handlers `hs` in order makes
`getHandlers()` return exactly `hs` in insertion order; `eject(j)` (the id
returned for the `j`-th registration) removes only that handler, leaving
the rest in their original insertion order; and `clear()` leaves the
manager with zero handlers. -/
theorem manager_invariants {α : Type} (ops : List (ManagerOp α))
    (onF : Option (α → Except RequestError α))
    (onR : Option (RequestError → Except RequestError (RecoverValue α)))
    (hs : List (InterceptHandler α)) (j : Nat) :
    ((runOps ops).1.use onF onR).1 ∉ (runOps ops).2 ∧
    (registerAll hs).getHandlers = hs ∧
    ((registerAll hs).eject j).getHandlers = hs.eraseIdx j ∧
    ((runOps ops).1.clear).getHandlers = [] := by
  refine ⟨?_, ?_, ?_, rfl⟩
  · intro hmem
    have h2 := runOps_returned_lt ops (createInterceptorManager α) [] (by simp) _ hmem
    exact Nat.lt_irrefl _ h2
  · unfold InterceptorManagerImpl.getHandlers registerAll
    rw [(foldl_use_spec hs (createInterceptorManager α)).1]
    simp [createInterceptorManager, List.enumFrom_map_snd]
  · unfold InterceptorManagerImpl.eject InterceptorManagerImpl.getHandlers registerAll
    rw [(foldl_use_spec hs (createInterceptorManager α)).1]
    have h3 := enumFrom_filter_ne hs 0 j
    simpa [createInterceptorManager] using h3

/-!
## Header container (`src/serializers/headers.ts`)

A platform `Headers` object is modelled as a list of name/value entries
with case-insensitive name matching (`lowerStr` on both sides, as the
fetch `Headers` class matches names case-insensitively).  `get`,
`set` and `delete` agree observably with the platform container; only the
iteration order of unrelated names may differ, which no merged-per-key
result depends on.
-/

/-- Header container model. -/
abbrev HeadersM := List (String × String)

/-- ASCII lowercasing of a header name (`Char.toLower` over the
characters), used for the platform container's case-insensitive name
matching.  (Structurally recursive, unlike `String.toLower`, so concrete
header computations reduce.) -/
def lowerStr (s : String) : String :=
  String.mk (s.toList.map Char.toLower)

/-- TS `Headers.prototype.set`: replace any entry with the same
(case-insensitive) name by the new value. -/
def hset (h : HeadersM) (key value : String) : HeadersM :=
  h.filter (fun p => lowerStr p.1 != lowerStr key) ++ [(key, value)]

/-- TS `Headers.prototype.delete`. -/
def hdelete (h : HeadersM) (key : String) : HeadersM :=
  h.filter (fun p => lowerStr p.1 != lowerStr key)

/-- TS `Headers.prototype.get` (case-insensitive, `none` for null). -/
def hget (h : HeadersM) (key : String) : Option String :=
  (h.find? (fun p => lowerStr p.1 == lowerStr key)).map Prod.snd

/-- TS `normalizeHeaders` from `src/serializers/headers.ts`, for the
record-of-strings input shape the merge claims are about: a fresh
container with `result.set(key, value)` applied to the entries in order
(the TS `undefined`/`null` value skip cannot fire for string values). -/
def normalizeHeaders (source : List (String × String)) : HeadersM :=
  source.foldl (fun acc kv => hset acc kv.1 kv.2) []

/-- The body of the `for (const source of sources)` loop of
`mergeHeaders`: normalize the source, then for each of its entries delete
the key if the value is the empty string, otherwise set it. -/
def mergeStep (result : HeadersM) (source : List (String × String)) : HeadersM :=
  (normalizeHeaders source).foldl
    (fun r kv => if kv.2 = "" then hdelete r kv.1 else hset r kv.1 kv.2) result

/-- TS `mergeHeaders` from `src/serializers/headers.ts` (the TS signature
also accepts `undefined` sources, which the loop skips; the model takes
the present sources). -/
def mergeHeaders (sources : List (List (String × String))) : HeadersM :=
  sources.foldl mergeStep []

/-- Filtering out one (case-insensitively matched) name does not change
`find?` for a different name. -/
theorem find?_filter_lower_ne (h : HeadersM) (kk qk : String) (hne : qk ≠ kk) :
    (h.filter (fun p => lowerStr p.1 != kk)).find? (fun p => lowerStr p.1 == qk)
      = h.find? (fun p => lowerStr p.1 == qk) := by
  induction h with
  | nil => rfl
  | cons p t ih =>
      by_cases h2 : lowerStr p.1 = kk
      · have h1 : ¬ lowerStr p.1 = qk := by
          rw [h2]; intro hx; exact hne hx.symm
        simp [List.filter_cons, h2, h1, ih]
        exact (List.find?_cons_of_neg _ (by simp [h1])).symm
      · by_cases h1 : lowerStr p.1 = qk
        · simp only [List.filter_cons]
          have hkeep : (lowerStr p.1 != kk) = true := by simp [h2]
          rw [hkeep, if_pos rfl]
          exact List.find?_cons_of_pos _ (by simp [h1]) |>.trans
            (List.find?_cons_of_pos _ (by simp [h1])).symm
        · simp only [List.filter_cons]
          have hkeep : (lowerStr p.1 != kk) = true := by simp [h2]
          rw [hkeep, if_pos rfl, List.find?_cons_of_neg _ (by simp [h1]), ih]
          exact (List.find?_cons_of_neg _ (by simp [h1])).symm

/-- TS `get` after `set`. -/
theorem hget_hset (h : HeadersM) (k v q : String) :
    hget (hset h k v) q = if lowerStr q = lowerStr k then some v else hget h q := by
  unfold hget hset
  rw [List.find?_append]
  by_cases hq : lowerStr q = lowerStr k
  · rw [if_pos hq]
    have h1 : (h.filter (fun p => lowerStr p.1 != lowerStr k)).find?
        (fun p => lowerStr p.1 == lowerStr q) = none := by
      refine List.find?_eq_none.mpr ?_
      intro p hp
      have hmem := List.of_mem_filter hp
      simp only [bne_iff_ne, ne_eq] at hmem
      simp only [beq_iff_eq, hq]
      exact hmem
    rw [h1]
    simp [List.find?, hq]
  · rw [if_neg hq]
    have h2 : List.find? (fun p : String × String => lowerStr p.1 == lowerStr q) [(k, v)]
        = none := by
      simp only [List.find?_eq_none, List.mem_singleton, forall_eq, beq_iff_eq]
      exact fun hx => hq (hx.symm)
    rw [h2, find?_filter_lower_ne h (lowerStr k) (lowerStr q) hq]
    cases h.find? (fun p : String × String => lowerStr p.1 == lowerStr q) <;> rfl

/-- TS `get` after `delete`. -/
theorem hget_hdelete (h : HeadersM) (k q : String) :
    hget (hdelete h k) q = if lowerStr q = lowerStr k then none else hget h q := by
  unfold hget hdelete
  by_cases hq : lowerStr q = lowerStr k
  · rw [if_pos hq]
    have h1 : (h.filter (fun p => lowerStr p.1 != lowerStr k)).find?
        (fun p => lowerStr p.1 == lowerStr q) = none := by
      refine List.find?_eq_none.mpr ?_
      intro p hp
      have hmem := List.of_mem_filter hp
      simp only [bne_iff_ne, ne_eq] at hmem
      simp only [beq_iff_eq, hq]
      exact hmem
    rw [h1]
    rfl
  · rw [if_neg hq, find?_filter_lower_ne h (lowerStr k) (lowerStr q) hq]

/-- TS `set` keeps header names pairwise distinct (case-insensitively). -/
theorem hset_pairwise (h : HeadersM) (k v : String)
    (hp : h.Pairwise (fun a b => lowerStr a.1 ≠ lowerStr b.1)) :
    (hset h k v).Pairwise (fun a b => lowerStr a.1 ≠ lowerStr b.1) := by
  unfold hset
  refine List.pairwise_append.mpr ⟨hp.filter _, List.pairwise_singleton _ _, ?_⟩
  intro a ha b hb
  have hmem := List.of_mem_filter ha
  simp only [bne_iff_ne, ne_eq] at hmem
  rcases List.mem_singleton.mp hb with rfl
  exact hmem

/-- A normalized header container has pairwise distinct names. -/
theorem normalizeHeaders_pairwise (src : List (String × String)) :
    (normalizeHeaders src).Pairwise (fun a b => lowerStr a.1 ≠ lowerStr b.1) := by
  unfold normalizeHeaders
  suffices hgen : ∀ (l : List (String × String)) (acc : HeadersM),
      acc.Pairwise (fun a b => lowerStr a.1 ≠ lowerStr b.1) →
      (l.foldl (fun acc kv => hset acc kv.1 kv.2) acc).Pairwise
        (fun a b => lowerStr a.1 ≠ lowerStr b.1) by
    exact hgen src [] (List.Pairwise.nil)
  intro l
  induction l with
  | nil => intro acc hacc; exact hacc
  | cons kv t ih => intro acc hacc; exact ih _ (hset_pairwise acc kv.1 kv.2 hacc)

/-- Folding the merge step over a container with distinct names: the final
value of a name is decided by that container's entry for the name (empty
string deletes, other values overwrite), and names it lacks keep the value
from the accumulated result. -/
theorem hget_mergeEntries (entries : HeadersM) :
    ∀ (r : HeadersM) (q : String),
      entries.Pairwise (fun a b => lowerStr a.1 ≠ lowerStr b.1) →
      hget (entries.foldl
        (fun r kv => if kv.2 = "" then hdelete r kv.1 else hset r kv.1 kv.2) r) q
      = (match entries.find? (fun p => lowerStr p.1 == lowerStr q) with
         | some p => if p.2 = "" then none else some p.2
         | none => hget r q) := by
  induction entries with
  | nil => intro r q _; rfl
  | cons e t ih =>
      intro r q hp
      rw [List.foldl_cons, ih _ q (List.Pairwise.sublist (List.sublist_cons_self e t) hp)]
      by_cases he : lowerStr e.1 = lowerStr q
      · have htnone : t.find? (fun p => lowerStr p.1 == lowerStr q) = none := by
          refine List.find?_eq_none.mpr ?_
          intro p hpmem
          have hne := (List.pairwise_cons.mp hp).1 p hpmem
          simp only [beq_iff_eq]
          intro hx
          exact hne (he.trans hx.symm)
        rw [htnone, List.find?_cons_of_pos _ (by simp [he])]
        by_cases hev : e.2 = ""
        · simp [hev, hget_hdelete, he.symm]
        · simp [hev, hget_hset, he.symm]
      · rw [List.find?_cons_of_neg _ (by simp [he])]
        have he2 : ¬ lowerStr q = lowerStr e.1 := fun hx => he hx.symm
        cases hft : t.find? (fun p => lowerStr p.1 == lowerStr q) with
        | some p => rfl
        | none =>
            by_cases hev : e.2 = ""
            · simp [hev, hget_hdelete, he2]
            · simp [hev, hget_hset, he2]

/-- C7: `mergeHeaders` folds its sources left to right, so the last
source carrying a (case-insensitively matched) key decides it: a
non-empty value overwrites whatever earlier sources produced, an
empty-string value deletes the key from the result, and a source without
the key leaves the earlier sources' result for it untouched; in
particular merging `[{Authorization: 'X'}, {Authorization: ''}]` yields a
container with no `Authorization` entry at all. -/
theorem mergeHeaders_semantics (pre : List (List (String × String)))
    (src : List (String × String)) (q v : String) :
    (hget (normalizeHeaders src) q = some v → v ≠ "" →
        hget (mergeHeaders (pre ++ [src])) q = some v)
    ∧ (hget (normalizeHeaders src) q = some "" →
        hget (mergeHeaders (pre ++ [src])) q = none)
    ∧ (hget (normalizeHeaders src) q = none →
        hget (mergeHeaders (pre ++ [src])) q = hget (mergeHeaders pre) q)
    ∧ hget (mergeHeaders [[("Authorization", "X")], [("Authorization", "")]])
        "Authorization" = none := by
  have hm : mergeHeaders (pre ++ [src]) = mergeStep (mergeHeaders pre) src := by
    unfold mergeHeaders
    rw [List.foldl_append]
    rfl
  have hbase : hget (mergeStep (mergeHeaders pre) src) q
      = (match (normalizeHeaders src).find? (fun p => lowerStr p.1 == lowerStr q) with
         | some p => if p.2 = "" then none else some p.2
         | none => hget (mergeHeaders pre) q) :=
    hget_mergeEntries (normalizeHeaders src) (mergeHeaders pre) q
      (normalizeHeaders_pairwise src)
  refine ⟨?_, ?_, ?_, by decide⟩
  · intro h1 h2
    obtain ⟨p, hp, hpv⟩ := Option.map_eq_some'.mp h1
    rw [hm, hbase, hp]
    show (if p.2 = "" then none else some p.2) = some v
    rw [hpv, if_neg h2]
  · intro h1
    obtain ⟨p, hp, hpv⟩ := Option.map_eq_some'.mp h1
    rw [hm, hbase, hp]
    show (if p.2 = "" then none else some p.2) = none
    rw [hpv]
    simp
  · intro h1
    rw [hm, hbase, Option.map_eq_none'.mp h1]

/-- Witness for `mergeHeaders_semantics`: the empty-string entry of the
later source deletes the `Authorization` key set by the earlier source. -/
theorem mergeHeaders_semantics_witness :
    hget (mergeHeaders ([[("Authorization", "X")]] ++ [[("Authorization", "")]]))
      "Authorization" = none :=
  (mergeHeaders_semantics [[("Authorization", "X")]] [("Authorization", "")]
    "Authorization" "X").2.1 (by decide)

/-!
## URL utilities (`src/utils/url.ts`)
-/

/-- A character of the scheme tail class `[a-z\d+-.]` (case-insensitive
regex flag: any ASCII letter). -/
def schemeTailChar (c : Char) : Bool :=
  c.isAlpha || c.isDigit || c = '+' || c = '-' || c = '.'

/-- After a leading ASCII letter, the regex
`^[a-z][a-z\d+-.]*:\/\//i` needs a run of scheme-tail characters
followed by `://`.  The tail class excludes `:`, so the greedy match is
deterministic and this scan is exactly the regex. -/
def schemeRest : List Char → Bool
  | ':' :: '/' :: '/' :: _ => true
  | c :: rest => schemeTailChar c && schemeRest rest
  | [] => false

/-- TS `isAbsoluteURL` from `src/utils/url.ts`: the regex
`^(?:[a-z][a-z\d+-.]*:)?\/\//i` — a URL is absolute when it starts with
`scheme://` or with the protocol-relative `//`. -/
def isAbsoluteURL (url : String) : Bool :=
  match url.toList with
  | [] => false
  | '/' :: rest =>
      (match rest with
       | '/' :: _ => true
       | _ => false)
  | c :: rest => if c.isAlpha then schemeRest rest else false

/-- TS `baseURL.replace(/\/+$/, '')`: remove every trailing slash. -/
def stripTrailingSlashes (s : String) : String :=
  String.mk ((s.toList.reverse.dropWhile (fun c => c = '/')).reverse)

/-- TS `relativeURL.replace(/^\/+/, '')`: remove every leading slash. -/
def stripLeadingSlashes (s : String) : String :=
  String.mk (s.toList.dropWhile (fun c => c = '/'))

/-- TS `combineURLs` from `src/utils/url.ts`. -/
def combineURLs (baseURL relativeURL : String) : String :=
  if baseURL = "" then relativeURL
  else if relativeURL = "" then baseURL
  else if isAbsoluteURL relativeURL then relativeURL
  else stripTrailingSlashes baseURL ++ "/" ++ stripLeadingSlashes relativeURL

/-- C8: For all strings `base` and `relative`: `combineURLs` returns
`relative` when `base` is empty; returns `base` when `relative` is empty;
returns `relative` unchanged whenever `relative` is absolute (scheme
prefix or protocol-relative `//`); and otherwise returns `base` with all
trailing slashes stripped, one `/`, and `relative` with all leading
slashes stripped. -/
theorem combineURLs_spec (base relative : String) :
    (base = "" → combineURLs base relative = relative)
    ∧ (relative = "" → combineURLs base relative = base)
    ∧ (isAbsoluteURL relative = true → combineURLs base relative = relative)
    ∧ (base ≠ "" → relative ≠ "" → isAbsoluteURL relative = false →
        combineURLs base relative
          = stripTrailingSlashes base ++ "/" ++ stripLeadingSlashes relative) := by
  refine ⟨?_, ?_, ?_, ?_⟩
  · intro hb
    simp [combineURLs, hb]
  · intro hr
    unfold combineURLs
    split_ifs with h1 <;> simp_all
  · intro habs
    unfold combineURLs
    by_cases h1 : base = ""
    · rw [if_pos h1]
    · rw [if_neg h1]
      by_cases h2 : relative = ""
      · subst h2
        exact absurd habs (by decide)
      · rw [if_neg h2, if_pos habs]
  · intro hb hr hna
    unfold combineURLs
    rw [if_neg hb, if_neg hr, if_neg (by simp [hna])]

/-- Witness for `combineURLs_spec`: joining `http://a//` and `/b` strips
the extra slashes down to a single separator. -/
theorem combineURLs_spec_witness :
    combineURLs "http://a//" "/b"
        = stripTrailingSlashes "http://a//" ++ "/" ++ stripLeadingSlashes "/b" ∧
    combineURLs "http://a//" "/b" = "http://a/b" :=
  ⟨(combineURLs_spec "http://a//" "/b").2.2.2 (by decide) (by decide) (by decide),
   by decide⟩

/-!
## Response decoding (`src/core/response.ts`)
-/

/-- TS `ResponseType` from `src/types.ts`. -/
inductive ResponseTypeM where
  | json | text | blob | arrayBuffer | stream | raw
deriving DecidableEq, Repr

/-- The slice of a platform `Response` that `parseResponse` reads: the
numeric status, the header container, and the body rendered as text
(`blob`/`arrayBuffer`/`stream` results carry the same bytes, kept as the
text they decode from). -/
structure ResponseM where
  status : Nat
  headers : HeadersM
  bodyText : String
deriving DecidableEq, Repr

/-- TS `startsWith` on character lists, the base of the substring test. -/
def startsWithChars : List Char → List Char → Bool
  | _, [] => true
  | [], _ :: _ => false
  | a :: s, b :: p => a = b && startsWithChars s p

/-- Substring occurrence on character lists. -/
def charsContain (pat : List Char) : List Char → Bool
  | [] => pat.isEmpty
  | c :: t => startsWithChars (c :: t) pat || charsContain pat t

/-- TS `String.prototype.includes`. -/
def strIncludes (s pat : String) : Bool :=
  charsContain pat.toList s.toList

/-- TS `isJSONContentType` from `src/serializers/headers.ts`: false for a
missing or empty content type, otherwise an `application/json` or
`+json` substring test. -/
def isJSONContentType (contentType : Option String) : Bool :=
  match contentType with
  | none => false
  | some c =>
      if c = "" then false
      else strIncludes c "application/json" || strIncludes c "+json"

/-- The decoded value `parseResponse` resolves with.  `undef` is the TS
`undefined`; a successful `JSON.parse`/`response.json()` is `jsonVal`,
its throw-and-fall-back-to-text path is `textVal`. -/
inductive ParsedBody (J : Type) where
  | undef
  | jsonVal (v : J)
  | textVal (s : String)
  | blobVal (s : String)
  | bufferVal (s : String)
  | streamVal (s : String)
  | rawResponse (r : ResponseM)
deriving DecidableEq, Repr

/-- TS `parseResponse` from `src/core/response.ts`.  The platform JSON
parser is the parameter `parseJson` (`none` models a `JSON.parse` /
`response.json()` throw, upon which the code falls back to the body
text). -/
def parseResponse {J : Type} (parseJson : String → Option J)
    (response : ResponseM) (responseType : ResponseTypeM) : ParsedBody J :=
  match responseType with
  | ResponseTypeM.text => ParsedBody.textVal response.bodyText
  | ResponseTypeM.blob => ParsedBody.blobVal response.bodyText
  | ResponseTypeM.arrayBuffer => ParsedBody.bufferVal response.bodyText
  | ResponseTypeM.stream => ParsedBody.streamVal response.bodyText
  | ResponseTypeM.raw => ParsedBody.rawResponse response
  | ResponseTypeM.json =>
      let contentType := hget response.headers "content-type"
      let contentLength := hget response.headers "content-length"
      if contentLength = some "0" ∨ response.status = 204 ∨ response.status = 205 then
        ParsedBody.undef
      else if isJSONContentType contentType then
        match parseJson response.bodyText with
        | some v => ParsedBody.jsonVal v
        | none => ParsedBody.textVal response.bodyText
      else if response.bodyText = "" then ParsedBody.undef
      else
        match parseJson response.bodyText with
        | some v => ParsedBody.jsonVal v
        | none => ParsedBody.textVal response.bodyText

/-- C9: With the default `json` response type, every response whose
status is 204 or 205, or whose `Content-Length` header is `'0'`, decodes
to the empty value `undefined` — never reaching the JSON parser —
regardless of the declared content type. -/
theorem parseResponse_json_empty {J : Type} (parseJson : String → Option J)
    (response : ResponseM)
    (h : response.status = 204 ∨ response.status = 205 ∨
         hget response.headers "content-length" = some "0") :
    parseResponse parseJson response ResponseTypeM.json = ParsedBody.undef := by
  unfold parseResponse
  rcases h with h | h | h <;> simp [h]

/-- A 204 response declaring a JSON content type. -/
def resp204 : ResponseM :=
  { status := 204
  , headers := [("content-type", "application/json")]
  , bodyText := "" }

/-- Witness for `parseResponse_json_empty` at the concrete 204 response. -/
theorem parseResponse_json_empty_witness :
    parseResponse (fun _ => (none : Option Unit)) resp204 ResponseTypeM.json
      = ParsedBody.undef :=
  parseResponse_json_empty (fun _ => (none : Option Unit)) resp204 (Or.inl rfl)
